import Mathlib

/-!
# FFmpegMediaReader: the playback synchronisation layer

A shallow embedding of `Source/cb_ffmpeg/FFmpegMediaReader.cpp`.

* `juce::int64` values are integers reduced by `wrapInt64` after every addition.
* `double` values (sample rate, duration, times in seconds) are exact rationals; the
  conversion `static_cast<juce::int64>` is truncation toward zero.
* Audio samples are rationals; the reader only copies and clears them.
* The listener list and the decode thread's request entry point are logs: every
  `videoListeners.call` appends a `Notification`, every `setPositionSeconds` call
  appends a `PositionRequest`.
* The collaborators that live outside `FFmpegMediaReader.cpp` (the decode thread base
  class, the audio FIFO and the video frame FIFO) are modelled from the specification
  and marked as such.
-/

namespace CbFFmpeg

/-! ## Machine integers -/

/-- Two's complement reduction of an integer to the range of `juce::int64`. -/
def wrapInt64 (x : Int) : Int := (x + 2 ^ 63) % 2 ^ 64 - 2 ^ 63

/-- The values a `juce::int64` can hold. -/
def inInt64 (x : Int) : Prop := -(2 ^ 63) ≤ x ∧ x < 2 ^ 63

instance (x : Int) : Decidable (inInt64 x) :=
  inferInstanceAs (Decidable (-(2 ^ 63) ≤ x ∧ x < 2 ^ 63))

/-- Conversion `static_cast<juce::int64> (double)`: the fractional part is discarded. -/
def truncToInt64 (q : ℚ) : Int := Int.tdiv q.num q.den

/-! ## JUCE audio buffers -/

/-- One channel of a `juce::AudioBuffer<float>`. -/
abbrev Channel := List ℚ

/-- A `juce::AudioBuffer<float>`: one list of samples per channel. -/
abbrev AudioBuffer := List Channel

/-- Zero `numSamples` samples of one channel, starting at `startSample`. -/
def clearChannel : Channel → Nat → Nat → Channel
  | [], _, _ => []
  | x :: xs, 0, 0 => x :: xs
  | _ :: xs, 0, n + 1 => 0 :: clearChannel xs 0 n
  | x :: xs, s + 1, n => x :: clearChannel xs s n

/-- Overwrite one channel with `src`, starting at `startSample`
(`juce::AudioBuffer::copyFrom` on a single channel). -/
def copyFromChannel : Channel → Nat → List ℚ → Channel
  | [], _, _ => []
  | d :: ds, 0, [] => d :: ds
  | _ :: ds, 0, x :: xs => x :: copyFromChannel ds 0 xs
  | d :: ds, s + 1, src => d :: copyFromChannel ds s src

/-- The call `juce::AudioBuffer::clear (startSample, numSamples)`: clears the region in
every channel. -/
def AudioBuffer.clear (b : AudioBuffer) (startSample numSamples : Nat) : AudioBuffer :=
  b.map (fun ch => clearChannel ch startSample numSamples)

/-- The sample of channel `c` at index `i`, when the buffer has one there. -/
def AudioBuffer.sampleAt (b : AudioBuffer) (c i : Nat) : Option ℚ :=
  (b[c]?).bind (fun ch => ch[i]?)

/-- A `juce::AudioSourceChannelInfo`: the block request handed to `getNextAudioBlock`.
JUCE requires `startSample` and `numSamples` to be non-negative. -/
structure AudioSourceChannelInfo where
  buffer : AudioBuffer
  startSample : Nat
  numSamples : Nat
deriving DecidableEq

/-- The call `juce::AudioSourceChannelInfo::clearActiveBufferRegion`, which is
`buffer->clear (startSample, numSamples)`. -/
def AudioSourceChannelInfo.clearActiveBufferRegion (bufferToFill : AudioSourceChannelInfo) :
    AudioBuffer :=
  bufferToFill.buffer.clear bufferToFill.startSample bufferToFill.numSamples

/-! ## The audio FIFO -/

/-- Modelled from the spec: `AudioBufferFIFO` (the SampleRingBuffer) is not part of
`FFmpegMediaReader.cpp`. A fixed-capacity multi-channel buffer; `ready` lists the frames
between the read and the write cursor, oldest first, one sample per channel in a frame. -/
structure AudioBufferFIFO where
  numChannels : Nat
  size : Nat
  ready : List (List ℚ)
deriving DecidableEq

/-- Modelled from the spec: the count of ready frames of the missing `AudioBufferFIFO`. -/
def AudioBufferFIFO.getNumReady (f : AudioBufferFIFO) : Nat := f.ready.length

/-- Copy `frames` into every channel of a buffer from `startSample` on; channel `c` of
the buffer receives sample `c` of each frame. -/
def copyFrames (frames : List (List ℚ)) (startSample : Nat) : Nat → AudioBuffer → AudioBuffer
  | _, [] => []
  | c, ch :: rest =>
    copyFromChannel ch startSample (frames.map (fun fr => fr.getD c 0))
      :: copyFrames frames startSample (c + 1) rest

/-- Modelled from the spec: `AudioBufferFIFO::readFromFifo` is missing. "`read(block,
maxCount)` copies up to `min(maxCount, countReady)` frames and advances the read cursor".
The frames land at the start of the block's region; without a count the whole block
length is read. -/
def AudioBufferFIFO.readFromFifo (f : AudioBufferFIFO) (bufferToFill : AudioSourceChannelInfo)
    (numSamples : Option Nat) : AudioBufferFIFO × AudioBuffer :=
  let count := min (numSamples.getD bufferToFill.numSamples) f.getNumReady
  ({ f with ready := f.ready.drop count },
   copyFrames (f.ready.take count) bufferToFill.startSample 0 bufferToFill.buffer)

/-- Modelled from the spec: `AudioBufferFIFO::setSize` is missing; resizing is followed
by a reset of the cursors. -/
def AudioBufferFIFO.setSize (_f : AudioBufferFIFO) (channels size : Nat) : AudioBufferFIFO :=
  { numChannels := channels, size := size, ready := [] }

/-- Modelled from the spec: `AudioBufferFIFO::reset` is missing; "`reset()`/`clear()`
zero cursors/content". -/
def AudioBufferFIFO.reset (f : AudioBufferFIFO) : AudioBufferFIFO := { f with ready := [] }

/-- Modelled from the spec: `AudioBufferFIFO::clear` is missing; "`reset()`/`clear()`
zero cursors/content". -/
def AudioBufferFIFO.clear (f : AudioBufferFIFO) : AudioBufferFIFO := { f with ready := [] }

/-- Modelled from the spec: the producer side write of the missing `AudioBufferFIFO`;
"`write(samples)` appends up to capacity, silently drops if full". -/
def AudioBufferFIFO.addToFifo (f : AudioBufferFIFO) (frames : List (List ℚ)) : AudioBufferFIFO :=
  { f with ready := f.ready ++ frames.take (f.size - f.ready.length) }

/-! ## The video frame FIFO -/

/-- A decoded video frame; the payload is identified by a handle. -/
structure AVFrame where
  handle : Nat
deriving DecidableEq

/-- Modelled from the spec: `FFmpegVideoFramesFIFO` (the FrameQueue) is not part of
`FFmpegMediaReader.cpp`. The frames appended so far with their presentation time in
seconds, and the read cursor; the write cursor is the length of `frames`. -/
structure FFmpegVideoFramesFIFO where
  frames : List (AVFrame × ℚ)
  readIndex : Nat
deriving DecidableEq

/-- Modelled from the spec: `countNewFrames` of the missing frame FIFO; "new frame
count = write − read". -/
def FFmpegVideoFramesFIFO.countNewFrames (q : FFmpegVideoFramesFIFO) : Nat :=
  q.frames.length - q.readIndex

/-- Modelled from the spec: `getFrameAtReadIndex` of the missing frame FIFO
(`peekAtReadCursor`); a null pointer when there is no frame at the cursor. -/
def FFmpegVideoFramesFIFO.getFrameAtReadIndex (q : FFmpegVideoFramesFIFO) : Option AVFrame :=
  (q.frames.get? q.readIndex).map Prod.fst

/-- Modelled from the spec: `getSecondsAtReadIndex` of the missing frame FIFO, the
presentation timestamp of the frame at the cursor. -/
def FFmpegVideoFramesFIFO.getSecondsAtReadIndex (q : FFmpegVideoFramesFIFO) : ℚ :=
  ((q.frames.get? q.readIndex).map Prod.snd).getD 0

/-- Modelled from the spec: `advanceReadIndex` of the missing frame FIFO
(`advanceReadCursor`). -/
def FFmpegVideoFramesFIFO.advanceReadIndex (q : FFmpegVideoFramesFIFO) : FFmpegVideoFramesFIFO :=
  { q with readIndex := q.readIndex + 1 }

/-! ## The decode thread (base class) -/

/-- What opening a file yields: the properties of the media found in it. -/
structure MediaInfo where
  sampleRate : ℚ
  numberOfAudioChannels : Int
  duration : ℚ
  videoWidth : Int
  videoHeight : Int
  pixelFormat : Int
deriving DecidableEq

/-- A `juce::File` as the decode engine sees it: its path and, when it can be opened
and decoded, the media it holds. -/
structure File where
  path : String
  media : Option MediaInfo
deriving DecidableEq

/-- A call of `setPositionSeconds (time, isSeek)` received by the decode thread. -/
structure PositionRequest where
  time : ℚ
  isSeek : Bool
deriving DecidableEq

/-- Modelled from the spec: the base class `FFmpegMediaDecodeThread` is not part of
`FFmpegMediaReader.cpp`. Its state as far as the reader consumes it: the properties of
the open media session, the end-of-file flag, the tracked presentation time, the two
shared containers (the audio FIFO is held by reference) and the requests posted through
`setPositionSeconds`. -/
structure FFmpegMediaDecodeThread where
  sampleRate : ℚ
  numberOfAudioChannels : Int
  duration : ℚ
  videoWidth : Int
  videoHeight : Int
  pixelFormat : Int
  endOfFileReached : Bool
  currentPositionSeconds : ℚ
  audioFifo : AudioBufferFIFO
  videoFramesFifo : FFmpegVideoFramesFIFO
  positionRequests : List PositionRequest
deriving DecidableEq

/-- Modelled from the spec: `FFmpegMediaDecodeThread::setPositionSeconds` is missing.
The call "only posts a request"; with `isSeek` it requests a seek, and "the end-of-file
flag must be cleared if the new time precedes the previous end". Without `isSeek` it is
a "keep decoding near this time" hint. -/
def FFmpegMediaDecodeThread.setPositionSeconds (d : FFmpegMediaDecodeThread) (time : ℚ)
    (isSeek : Bool) : FFmpegMediaDecodeThread :=
  { d with
    positionRequests := d.positionRequests ++ [{ time := time, isSeek := isSeek }]
    endOfFileReached := if isSeek ∧ time < d.duration then false else d.endOfFileReached }

/-- Modelled from the spec: `FFmpegMediaDecodeThread::closeMediaFile` is missing. It
"closes any existing session": no media is loaded afterwards and both shared containers
are empty. -/
def FFmpegMediaDecodeThread.closeMediaFile (d : FFmpegMediaDecodeThread) :
    FFmpegMediaDecodeThread :=
  { d with
    sampleRate := 0
    numberOfAudioChannels := 0
    duration := 0
    videoWidth := 0
    videoHeight := 0
    pixelFormat := 0
    audioFifo := d.audioFifo.reset
    videoFramesFifo := { frames := [], readIndex := 0 } }

/-- Modelled from the spec: `FFmpegMediaDecodeThread::loadMediaFile` is missing;
"`open(path) -> bool`". A successful open installs the properties of the media and
answers `true`; "a failed open leaves no file loaded" and answers `false`. -/
def FFmpegMediaDecodeThread.loadMediaFile (d : FFmpegMediaDecodeThread) (inputFile : File) :
    FFmpegMediaDecodeThread × Bool :=
  match inputFile.media with
  | some m =>
    ({ d with
       sampleRate := m.sampleRate
       numberOfAudioChannels := m.numberOfAudioChannels
       duration := m.duration
       videoWidth := m.videoWidth
       videoHeight := m.videoHeight
       pixelFormat := m.pixelFormat }, true)
  | none => (d, false)

/-! ## The reader -/

/-- A call dispatched to the registered `FFmpegVideoListener`s. -/
inductive Notification where
  | videoFileChanged (path : String)
  | videoSizeChanged (width height pixelFormat : Int)
  | videoEnded
deriving DecidableEq

/-- The state of an `FFmpegMediaReader`: its base class part, its own members and the
calls made so far on `videoListeners`. The members `audioFifoSize` and `nextReadPos`
are the ones its constructor initialises; the base class cannot reach them. -/
structure FFmpegMediaReader extends FFmpegMediaDecodeThread where
  audioFifoSize : Nat
  nextReadPos : Int
  mediaFile : Option File
  notifications : List Notification
deriving DecidableEq

namespace FFmpegMediaReader

/-- Accessor `getSampleRate` of the decode thread. -/
def getSampleRate (s : FFmpegMediaReader) : ℚ := s.sampleRate

/-- Accessor `getNumberOfAudioChannels` of the decode thread. -/
def getNumberOfAudioChannels (s : FFmpegMediaReader) : Int := s.numberOfAudioChannels

/-- Accessor `getDuration` of the decode thread. -/
def getDuration (s : FFmpegMediaReader) : ℚ := s.duration

/-- The base class call `setPositionSeconds` made on a reader. -/
def setPositionSeconds (s : FFmpegMediaReader) (time : ℚ) (isSeek : Bool) : FFmpegMediaReader :=
  { s with toFFmpegMediaDecodeThread := s.toFFmpegMediaDecodeThread.setPositionSeconds time isSeek }

/-- The base class call `closeMediaFile` made on a reader. -/
def closeMediaFile (s : FFmpegMediaReader) : FFmpegMediaReader :=
  { s with toFFmpegMediaDecodeThread := s.toFFmpegMediaDecodeThread.closeMediaFile }

/-- Source: `FFmpegMediaReader::loadMediaFile`. -/
def loadMediaFile (s : FFmpegMediaReader) (inputFile : File) : FFmpegMediaReader × Bool :=
  let s1 := s.closeMediaFile
  let s2 := { s1 with mediaFile := none }
  let s3 := { s2 with currentPositionSeconds := 0 }
  let s4 := { s3 with endOfFileReached := false }
  let opened := s4.toFFmpegMediaDecodeThread.loadMediaFile inputFile
  if opened.2 then
    let s5 := { s4 with toFFmpegMediaDecodeThread := opened.1 }
    let s6 := { s5 with
      notifications := s5.notifications ++ [Notification.videoFileChanged inputFile.path] }
    ({ s6 with
       notifications := s6.notifications ++
         [Notification.videoSizeChanged s6.videoWidth s6.videoHeight s6.pixelFormat] }, true)
  else
    ({ s4 with toFFmpegMediaDecodeThread := opened.1 }, false)

/-- Source: `FFmpegMediaReader::getPositionSeconds`. -/
def getPositionSeconds (s : FFmpegMediaReader) : ℚ :=
  if 0 < s.getSampleRate then (s.nextReadPos : ℚ) / s.getSampleRate else -1

/-- Source: `FFmpegMediaReader::prepareToPlay`; both arguments are ignored. -/
def prepareToPlay (s : FFmpegMediaReader) (_samplesPerBlockExpected : Int) (_newSampleRate : ℚ) :
    FFmpegMediaReader :=
  let s1 :=
    if 0 < s.getNumberOfAudioChannels then
      let numChannels := max 1 s.getNumberOfAudioChannels
      { s with audioFifo := (s.audioFifo.setSize numChannels.toNat s.audioFifoSize).reset }
    else s
  { s1 with nextReadPos := 0 }

/-- Source: `FFmpegMediaReader::releaseResources`. -/
def releaseResources (s : FFmpegMediaReader) : FFmpegMediaReader :=
  { s with audioFifo := s.audioFifo.clear }

/-- Source: `FFmpegMediaReader::getNextReadPosition`. -/
def getNextReadPosition (s : FFmpegMediaReader) : Int := s.nextReadPos

/-- Source: `FFmpegMediaReader::getTotalLength`. -/
def getTotalLength (s : FFmpegMediaReader) : Int :=
  if 0 < s.getSampleRate then truncToInt64 (s.getDuration * s.getSampleRate) else 0

/-- Source: `FFmpegMediaReader::isLooping`. -/
def isLooping (_s : FFmpegMediaReader) : Bool := false

/-- Source: `FFmpegMediaReader::isEndOfFile`. -/
def isEndOfFile (s : FFmpegMediaReader) : Bool := s.endOfFileReached

/-- The FIFO part of `getNextAudioBlock` (the `if`/`else` on `getNumReady`): the FIFO
and the buffer after it. -/
def fillFromFifo (fifo : AudioBufferFIFO) (bufferToFill : AudioSourceChannelInfo) :
    AudioBufferFIFO × AudioBuffer :=
  if bufferToFill.numSamples ≤ fifo.getNumReady then
    fifo.readFromFifo bufferToFill none
  else
    let numSamples := fifo.getNumReady
    if 0 < numSamples then
      let r := fifo.readFromFifo bufferToFill (some numSamples)
      (r.1, r.2.clear numSamples (bufferToFill.numSamples - numSamples))
    else
      (fifo, bufferToFill.clearActiveBufferRegion)

/-- Source: `FFmpegMediaReader::getNextAudioBlock`. Answers the reader afterwards and
the contents of the caller's buffer afterwards. -/
def getNextAudioBlock (s : FFmpegMediaReader) (bufferToFill : AudioSourceChannelInfo) :
    FFmpegMediaReader × AudioBuffer :=
  if 0 < s.getNumberOfAudioChannels then
    if s.getSampleRate ≤ 0 ∨ s.getNumberOfAudioChannels ≤ 0 then
      ({ s with nextReadPos := wrapInt64 (s.nextReadPos + bufferToFill.numSamples) },
       bufferToFill.clearActiveBufferRegion)
    else
      let s1 := s.setPositionSeconds ((s.nextReadPos : ℚ) / s.getSampleRate) false
      let filled := fillFromFifo s1.audioFifo bufferToFill
      let s2 := { s1 with audioFifo := filled.1 }
      let s3 := { s2 with nextReadPos := wrapInt64 (s2.nextReadPos + bufferToFill.numSamples) }
      if s3.endOfFileReached ∧ s3.getTotalLength ≤ s3.nextReadPos then
        ({ s3 with notifications := s3.notifications ++ [Notification.videoEnded] }, filled.2)
      else
        (s3, filled.2)
  else
    ({ s with nextReadPos := wrapInt64 (s.nextReadPos + bufferToFill.numSamples) },
     bufferToFill.clearActiveBufferRegion)

/-- Source: `FFmpegMediaReader::setNextReadPosition`. -/
def setNextReadPosition (s : FFmpegMediaReader) (newPosition : Int) : FFmpegMediaReader :=
  if 0 < s.getSampleRate then
    let s1 := { s with nextReadPos := newPosition }
    s1.setPositionSeconds ((s1.nextReadPos : ℚ) / s1.getSampleRate) true
  else
    s

/-- Source: `FFmpegMediaReader::getNextVideoFrame`; a null pointer is `none`. -/
def getNextVideoFrame (s : FFmpegMediaReader) : FFmpegMediaReader × Option AVFrame :=
  if 0 < s.videoFramesFifo.countNewFrames then
    let nextFrame := s.videoFramesFifo.getFrameAtReadIndex
    let s1 := { s with currentPositionSeconds := s.videoFramesFifo.getSecondsAtReadIndex }
    let s2 := { s1 with videoFramesFifo := s1.videoFramesFifo.advanceReadIndex }
    (s2, nextFrame)
  else
    (s, none)

/-- One evaluation of the loop condition of `waitForNextAudioBlockReady`: what
`audioFifo.getNumReady ()` and `juce::Time::getCurrentTime().toMilliseconds()` answer. -/
structure Poll where
  numReady : Int
  nowMs : Int
deriving DecidableEq

/-- The `while` loop of `waitForNextAudioBlockReady` over the successive evaluations of
its condition: the evaluation at which the loop ends, if the list holds it. -/
def waitLoop (numSamples timeout : Int) : List Poll → Option Poll
  | [] => none
  | p :: ps =>
    if p.numReady < numSamples ∧ p.nowMs < timeout then waitLoop numSamples timeout ps
    else some p

/-- Source: `FFmpegMediaReader::waitForNextAudioBlockReady`. `startMs` is the clock when
the timeout is computed, `polls` are the evaluations of the loop condition; the answer
is `none` when `polls` ends before the loop does. -/
def waitForNextAudioBlockReady (bufferToFill : AudioSourceChannelInfo) (msecs : Int)
    (startMs : Int) (polls : List Poll) : Option Bool :=
  let timeout := wrapInt64 (startMs + msecs)
  (waitLoop bufferToFill.numSamples timeout polls).map (fun _ => false)

/-! ## Sequences of calls -/

/-- What the decode thread did since the previous audio callback: the frames it wrote to
the audio FIFO and whether it signalled the end of the file. -/
structure ProducerActivity where
  frames : List (List ℚ)
  reachedEndOfFile : Bool
deriving DecidableEq

/-- The reader after the decode thread's activity. -/
def produce (s : FFmpegMediaReader) (p : ProducerActivity) : FFmpegMediaReader :=
  { s with
    audioFifo := s.audioFifo.addToFifo p.frames
    endOfFileReached := s.endOfFileReached || p.reachedEndOfFile }

/-- One audio callback: the producer's activity before it and the block it requests. -/
structure AudioCallback where
  producer : ProducerActivity
  bufferToFill : AudioSourceChannelInfo
deriving DecidableEq

/-- The reader after a sequence of `getNextAudioBlock` calls, with no
`setNextReadPosition` or `prepareToPlay` in between. -/
def playBlocks (s : FFmpegMediaReader) : List AudioCallback → FFmpegMediaReader
  | [] => s
  | c :: cs => playBlocks ((produce s c.producer).getNextAudioBlock c.bufferToFill).1 cs

/-- The notifications each call of a sequence of `getNextAudioBlock` calls dispatched. -/
def playTrace (s : FFmpegMediaReader) : List AudioCallback → List (List Notification)
  | [] => []
  | c :: cs =>
    let s0 := produce s c.producer
    let s1 := (s0.getNextAudioBlock c.bufferToFill).1
    s1.notifications.drop s0.notifications.length :: playTrace s1 cs

/-- The sum of the block lengths of a sequence of audio callbacks. -/
def totalSamples : List AudioCallback → Nat
  | [] => 0
  | c :: cs => c.bufferToFill.numSamples + totalSamples cs

/-- The read position after each block of a sequence started at `start`, were every
block to advance it by its length. -/
def positionsAfter (start : Int) : List AudioCallback → List Int
  | [] => []
  | c :: cs =>
    (start + c.bufferToFill.numSamples) :: positionsAfter (start + c.bufferToFill.numSamples) cs

/-- The frames a number of successive `getNextVideoFrame` calls return, and the reader
afterwards. -/
def pullVideoFrames : Nat → FFmpegMediaReader → FFmpegMediaReader × List (Option AVFrame)
  | 0, s => (s, [])
  | n + 1, s =>
    let r := s.getNextVideoFrame
    let rest := pullVideoFrames n r.1
    (rest.1, r.2 :: rest.2)

end FFmpegMediaReader

/-! ## Example states -/

open FFmpegMediaReader

/-- A decode thread holding a mono session of ten seconds at 48 kHz whose producer has
signalled the end of the file. -/
def monoThread : FFmpegMediaDecodeThread :=
  { sampleRate := 48000
    numberOfAudioChannels := 1
    duration := 10
    videoWidth := 640
    videoHeight := 360
    pixelFormat := 0
    endOfFileReached := true
    currentPositionSeconds := 0
    audioFifo := { numChannels := 1, size := 4096, ready := [] }
    videoFramesFifo := { frames := [], readIndex := 0 }
    positionRequests := [] }

/-- A reader on `monoThread` at position 0. -/
def monoReader : FFmpegMediaReader :=
  { toFFmpegMediaDecodeThread := monoThread
    audioFifoSize := 4096
    nextReadPos := 0
    mediaFile := none
    notifications := [] }

/-- The reader `monoReader` two blocks of 480 samples before the end of its media. -/
def nearEndReader : FFmpegMediaReader := { monoReader with nextReadPos := 479040 }

/-- The reader `monoReader` with one frame ready in its audio FIFO. -/
def underrunReader : FFmpegMediaReader :=
  { monoReader with audioFifo := { numChannels := 1, size := 4096, ready := [[1 / 2]] } }

/-- A reader whose media has video only: no audio channel. -/
def videoOnlyReader : FFmpegMediaReader :=
  { monoReader with numberOfAudioChannels := 0, sampleRate := 0, nextReadPos := 960 }

/-- A request for 480 samples into a mono buffer of that length. -/
def block480 : AudioSourceChannelInfo :=
  { buffer := [List.replicate 480 1], startSample := 0, numSamples := 480 }

/-- A request for the two samples at indices 1 and 2 of a mono buffer of four. -/
def offsetBlock : AudioSourceChannelInfo :=
  { buffer := [[1, 1, 1, 1]], startSample := 1, numSamples := 2 }

/-- An audio callback for `block480` before which the producer did nothing. -/
def callback480 : AudioCallback :=
  { producer := { frames := [], reachedEndOfFile := false }, bufferToFill := block480 }

/-- A file that cannot be opened. -/
def brokenFile : File := { path := "broken.mp4", media := none }

/-- A file holding stereo audio at 44.1 kHz and five seconds of video. -/
def stereoFile : File :=
  { path := "clip.mp4"
    media := some { sampleRate := 44100, numberOfAudioChannels := 2, duration := 5,
                    videoWidth := 1280, videoHeight := 720, pixelFormat := 0 } }

/-- The reader `monoReader` with three frames appended to its video queue, the first of
them already read. -/
def videoReader : FFmpegMediaReader :=
  { monoReader with
    videoFramesFifo :=
      { frames := [(⟨7⟩, 0), (⟨8⟩, 1 / 25), (⟨9⟩, 2 / 25)], readIndex := 1 } }

/-! ## Lemmas on the embedding -/

theorem wrapInt64_eq_self {x : Int} (h : inInt64 x) : wrapInt64 x = x := by
  unfold inInt64 at h
  unfold wrapInt64
  omega

theorem clearChannel_getElem? (xs : Channel) (s n i : Nat) :
    (clearChannel xs s n)[i]? =
      if s ≤ i ∧ i < s + n then (xs[i]?).map (fun _ => 0) else xs[i]? := by
  induction xs generalizing s n i with
  | nil => simp [clearChannel]
  | cons x xs ih =>
    cases s with
    | zero =>
      cases n with
      | zero => simp [clearChannel]
      | succ n =>
        cases i with
        | zero => simp [clearChannel]
        | succ i =>
          simp only [clearChannel, List.getElem?_cons_succ, ih]
          simp
    | succ s =>
      cases i with
      | zero => simp [clearChannel]
      | succ i =>
        simp only [clearChannel, List.getElem?_cons_succ, ih]
        have : (s + 1 ≤ i + 1 ∧ i + 1 < s + 1 + n) ↔ (s ≤ i ∧ i < s + n) := by omega
        simp only [this]

theorem clear_sampleAt (b : AudioBuffer) (s n c i : Nat) :
    (b.clear s n).sampleAt c i =
      if s ≤ i ∧ i < s + n then (b.sampleAt c i).map (fun _ => 0) else b.sampleAt c i := by
  unfold AudioBuffer.sampleAt AudioBuffer.clear
  rw [List.getElem?_map]
  cases h : b[c]? with
  | none => simp
  | some ch =>
    simp only [Option.map_some', Option.some_bind, clearChannel_getElem?]

theorem copyFromChannel_getElem? (ds : Channel) (s : Nat) (src : List ℚ) (i : Nat) :
    (copyFromChannel ds s src)[i]? =
      if s ≤ i ∧ i < s + src.length then (ds[i]?).bind (fun _ => src[i - s]?) else ds[i]? := by
  induction ds generalizing s src i with
  | nil => simp [copyFromChannel]
  | cons d ds ih =>
    cases s with
    | zero =>
      cases src with
      | nil => simp [copyFromChannel]
      | cons x xs =>
        cases i with
        | zero => simp [copyFromChannel]
        | succ i =>
          simp only [copyFromChannel, List.getElem?_cons_succ, ih]
          simp
    | succ s =>
      cases i with
      | zero => simp [copyFromChannel]
      | succ i =>
        simp only [copyFromChannel, List.getElem?_cons_succ, ih]
        have : (s + 1 ≤ i + 1 ∧ i + 1 < s + 1 + src.length) ↔ (s ≤ i ∧ i < s + src.length) := by
          omega
        simp only [this, Nat.add_sub_add_right]

/-- The samples of a buffer after frames were copied into it from `s` on. -/
theorem copyFrames_sampleAt (frames : List (List ℚ)) (s : Nat) (buf : AudioBuffer) :
    ∀ c0 c i : Nat, (copyFrames frames s c0 buf).sampleAt c i =
      if s ≤ i ∧ i < s + frames.length
      then (buf.sampleAt c i).bind (fun _ => (frames.map (fun fr => fr.getD (c0 + c) 0))[i - s]?)
      else buf.sampleAt c i := by
  induction buf with
  | nil =>
    intro c0 c i
    simp [copyFrames, AudioBuffer.sampleAt]
  | cons ch rest ih =>
    intro c0 c i
    cases c with
    | zero =>
      simp only [copyFrames, AudioBuffer.sampleAt, List.getElem?_cons_zero, Option.some_bind,
        copyFromChannel_getElem?, List.length_map, Nat.add_zero]
    | succ c =>
      have h := ih (c0 + 1) c i
      simp only [AudioBuffer.sampleAt] at h ⊢
      simp only [copyFrames, List.getElem?_cons_succ, h]
      have : c0 + 1 + c = c0 + (c + 1) := by omega
      rw [this]

/-- The buffer after the underrun path of `getNextAudioBlock` with `0 < numReady <
numSamples`: the frames go to `startSample` on, the silence to `numReady` on. -/
theorem fillFromFifo_underrun_sampleAt (fifo : AudioBufferFIFO) (b : AudioSourceChannelInfo)
    (h0 : 0 < fifo.getNumReady) (h1 : fifo.getNumReady < b.numSamples) (c i : Nat) :
    (fillFromFifo fifo b).2.sampleAt c i =
      if fifo.getNumReady ≤ i ∧ i < b.numSamples
      then (b.buffer.sampleAt c i).map (fun _ => 0)
      else if b.startSample ≤ i ∧ i < b.startSample + fifo.getNumReady
      then (b.buffer.sampleAt c i).bind
        (fun _ => (fifo.ready.map (fun fr => fr.getD c 0))[i - b.startSample]?)
      else b.buffer.sampleAt c i := by
  unfold fillFromFifo
  rw [if_neg (by omega)]
  dsimp only
  rw [if_pos h0, clear_sampleAt]
  unfold AudioBufferFIFO.readFromFifo
  dsimp only
  have hcount : min ((some fifo.getNumReady).getD b.numSamples) fifo.getNumReady =
      fifo.ready.length := by
    simp [AudioBufferFIFO.getNumReady]
  rw [hcount, List.take_length, copyFrames_sampleAt]
  unfold AudioBufferFIFO.getNumReady at *
  have hreg : (fifo.ready.length ≤ i ∧ i < fifo.ready.length + (b.numSamples - fifo.ready.length)) ↔
      (fifo.ready.length ≤ i ∧ i < b.numSamples) := by omega
  simp only [hreg, Nat.zero_add]
  by_cases hz : fifo.ready.length ≤ i ∧ i < b.numSamples
  · rw [if_pos hz, if_pos hz]
    by_cases hr : b.startSample ≤ i ∧ i < b.startSample + fifo.ready.length
    · rw [if_pos hr]
      have hidx : i - b.startSample < (fifo.ready.map (fun fr => fr.getD c 0)).length := by
        rw [List.length_map]
        omega
      rw [List.getElem?_eq_getElem hidx]
      cases b.buffer.sampleAt c i <;> rfl
    · rw [if_neg hr]
  · rw [if_neg hz, if_neg hz]

/-- With `startSample = 0` the underrun path fills the region as intended: the ready
frames first, silence up to the block length, nothing else touched. -/
theorem fillFromFifo_underrun_from_zero (fifo : AudioBufferFIFO) (b : AudioSourceChannelInfo)
    (hs : b.startSample = 0) (h1 : fifo.getNumReady < b.numSamples) (c i : Nat) :
    (fillFromFifo fifo b).2.sampleAt c i =
      if i < fifo.getNumReady
      then (b.buffer.sampleAt c i).bind (fun _ => (fifo.ready.map (fun fr => fr.getD c 0))[i]?)
      else if i < b.numSamples then (b.buffer.sampleAt c i).map (fun _ => 0)
      else b.buffer.sampleAt c i := by
  by_cases h0 : 0 < fifo.getNumReady
  · rw [fillFromFifo_underrun_sampleAt fifo b h0 h1, hs]
    by_cases hi : i < fifo.getNumReady
    · rw [if_neg (by omega), if_pos (by omega), if_pos hi, Nat.sub_zero]
    · rw [if_neg hi]
      by_cases hn : i < b.numSamples
      · rw [if_pos (by omega), if_pos hn]
      · rw [if_neg (by omega), if_neg (by omega), if_neg hn]
  · have hzero : fifo.getNumReady = 0 := by omega
    unfold fillFromFifo
    rw [if_neg (by omega)]
    dsimp only
    rw [if_neg h0]
    unfold AudioSourceChannelInfo.clearActiveBufferRegion
    rw [clear_sampleAt, hs, hzero]
    have hlow : ¬ i < 0 := by omega
    rw [if_neg hlow]
    by_cases hn : i < b.numSamples
    · have hc : 0 ≤ i ∧ i < 0 + b.numSamples := by omega
      rw [if_pos hc, if_pos hn]
    · have hc : ¬ (0 ≤ i ∧ i < 0 + b.numSamples) := by omega
      rw [if_neg hc, if_neg hn]

/-- With `startSample > 0` the underrun path with `0 < numReady < numSamples` leaves the
last sample of the requested region as it was. -/
theorem fillFromFifo_underrun_tail_unwritten (fifo : AudioBufferFIFO)
    (b : AudioSourceChannelInfo) (hs : 0 < b.startSample)
    (h0 : 0 < fifo.getNumReady) (h1 : fifo.getNumReady < b.numSamples) (c : Nat) :
    (fillFromFifo fifo b).2.sampleAt c (b.startSample + b.numSamples - 1) =
      b.buffer.sampleAt c (b.startSample + b.numSamples - 1) := by
  rw [fillFromFifo_underrun_sampleAt fifo b h0 h1, if_neg (by omega), if_neg (by omega)]

/-- The call `clear (numReady, numSamples - numReady)` of the underrun path reaches no
further than index `numSamples`: with `startSample > 0` the last sample of the requested
region is left as the read left it. -/
theorem clear_from_numReady_misses_tail (afterRead : AudioBuffer) (numReady numSamples : Nat)
    (startSample c : Nat) (hs : 0 < startSample) (hr : numReady < numSamples) :
    (afterRead.clear numReady (numSamples - numReady)).sampleAt c (startSample + numSamples - 1) =
      afterRead.sampleAt c (startSample + numSamples - 1) := by
  rw [clear_sampleAt, if_neg (by omega)]

/-- The two silent paths of `getNextAudioBlock`: no audio channel, or an invalid sample
rate. -/
theorem getNextAudioBlock_silent (s : FFmpegMediaReader) (b : AudioSourceChannelInfo)
    (h : ¬ 0 < s.getNumberOfAudioChannels ∨ s.getSampleRate ≤ 0) :
    s.getNextAudioBlock b =
      ({ s with nextReadPos := wrapInt64 (s.nextReadPos + b.numSamples) },
       b.clearActiveBufferRegion) := by
  unfold getNextAudioBlock
  by_cases hch : 0 < s.getNumberOfAudioChannels
  · have hsr : s.getSampleRate ≤ 0 := h.resolve_left (not_not.mpr hch)
    rw [if_pos hch, if_pos (Or.inl hsr)]
  · rw [if_neg hch]

/-- The audio path of `getNextAudioBlock`, written as one update of the reader. -/
theorem getNextAudioBlock_audio (s : FFmpegMediaReader) (b : AudioSourceChannelInfo)
    (hch : 0 < s.getNumberOfAudioChannels) (hsr : 0 < s.getSampleRate) :
    s.getNextAudioBlock b =
      ({ s with
         positionRequests := s.positionRequests ++
           [{ time := (s.nextReadPos : ℚ) / s.getSampleRate, isSeek := false }]
         audioFifo := (fillFromFifo s.audioFifo b).1
         nextReadPos := wrapInt64 (s.nextReadPos + b.numSamples)
         notifications := s.notifications ++
           (if s.endOfFileReached = true ∧
               s.getTotalLength ≤ wrapInt64 (s.nextReadPos + b.numSamples)
            then [Notification.videoEnded] else []) },
       (fillFromFifo s.audioFifo b).2) := by
  have h1 : ¬ (s.getSampleRate ≤ 0 ∨ s.getNumberOfAudioChannels ≤ 0) := by
    rw [not_or, not_le, not_le]
    exact ⟨hsr, hch⟩
  unfold getNextAudioBlock
  rw [if_pos hch, if_neg h1]
  dsimp only
  by_cases hend : s.endOfFileReached = true ∧
      s.getTotalLength ≤ wrapInt64 (s.nextReadPos + b.numSamples)
  · rw [if_pos hend, if_pos]
    · simp [FFmpegMediaReader.setPositionSeconds, FFmpegMediaDecodeThread.setPositionSeconds]
    · exact hend
  · rw [if_neg hend, if_neg]
    · simp [FFmpegMediaReader.setPositionSeconds, FFmpegMediaDecodeThread.setPositionSeconds]
    · exact hend

/-- Every path of `getNextAudioBlock` is either the silent or the audio one. -/
theorem getNextAudioBlock_cases (s : FFmpegMediaReader) :
    (¬ 0 < s.getNumberOfAudioChannels ∨ s.getSampleRate ≤ 0) ∨
      (0 < s.getNumberOfAudioChannels ∧ 0 < s.getSampleRate) := by
  by_cases hch : 0 < s.getNumberOfAudioChannels
  · by_cases hsr : 0 < s.getSampleRate
    · exact Or.inr ⟨hch, hsr⟩
    · exact Or.inl (Or.inr (not_lt.mp hsr))
  · exact Or.inl (Or.inl hch)

theorem getNextAudioBlock_nextReadPos (s : FFmpegMediaReader) (b : AudioSourceChannelInfo) :
    (s.getNextAudioBlock b).1.nextReadPos = wrapInt64 (s.nextReadPos + b.numSamples) := by
  rcases getNextAudioBlock_cases s with h | ⟨hch, hsr⟩
  · rw [getNextAudioBlock_silent s b h]
  · rw [getNextAudioBlock_audio s b hch hsr]

/-- The block call changes neither the properties of the media session nor the
end-of-file flag. -/
theorem getNextAudioBlock_session (s : FFmpegMediaReader) (b : AudioSourceChannelInfo) :
    (s.getNextAudioBlock b).1.sampleRate = s.sampleRate ∧
    (s.getNextAudioBlock b).1.numberOfAudioChannels = s.numberOfAudioChannels ∧
    (s.getNextAudioBlock b).1.duration = s.duration ∧
    (s.getNextAudioBlock b).1.endOfFileReached = s.endOfFileReached := by
  rcases getNextAudioBlock_cases s with h | ⟨hch, hsr⟩
  · rw [getNextAudioBlock_silent s b h]
    exact ⟨rfl, rfl, rfl, rfl⟩
  · rw [getNextAudioBlock_audio s b hch hsr]
    exact ⟨rfl, rfl, rfl, rfl⟩

theorem getNextAudioBlock_getTotalLength (s : FFmpegMediaReader) (b : AudioSourceChannelInfo) :
    (s.getNextAudioBlock b).1.getTotalLength = s.getTotalLength := by
  obtain ⟨h1, _, h3, _⟩ := getNextAudioBlock_session s b
  unfold getTotalLength getSampleRate getDuration
  rw [h1, h3]

/-- The notifications one block call dispatches. -/
theorem getNextAudioBlock_notifications (s : FFmpegMediaReader) (b : AudioSourceChannelInfo) :
    (s.getNextAudioBlock b).1.notifications =
      s.notifications ++
        (if 0 < s.getNumberOfAudioChannels ∧ 0 < s.getSampleRate ∧ s.endOfFileReached = true ∧
            s.getTotalLength ≤ wrapInt64 (s.nextReadPos + b.numSamples)
         then [Notification.videoEnded] else []) := by
  rcases getNextAudioBlock_cases s with h | ⟨hch, hsr⟩
  · rw [getNextAudioBlock_silent s b h, if_neg]
    · simp
    · rintro ⟨hch, hsr, _⟩
      rcases h with h | h
      · exact h hch
      · exact absurd hsr (not_lt.mpr h)
  · rw [getNextAudioBlock_audio s b hch hsr]
    simp only [hch, hsr, true_and]

theorem playBlocks_nextReadPos (cs : List AudioCallback) :
    ∀ s : FFmpegMediaReader, inInt64 s.nextReadPos →
      inInt64 (s.nextReadPos + (totalSamples cs : Nat)) →
      (playBlocks s cs).nextReadPos = s.nextReadPos + (totalSamples cs : Nat) := by
  induction cs with
  | nil =>
    intro s _ _
    simp [playBlocks, totalSamples]
  | cons c cs ih =>
    intro s hs hall
    have hcast : ((totalSamples (c :: cs) : Nat) : Int) =
        (c.bufferToFill.numSamples : Int) + (totalSamples cs : Nat) := by
      simp [totalSamples]
    rw [hcast] at hall ⊢
    have hstep : inInt64 (s.nextReadPos + (c.bufferToFill.numSamples : Int)) := by
      unfold inInt64 at hs hall ⊢
      omega
    have hpos : ((produce s c.producer).getNextAudioBlock c.bufferToFill).1.nextReadPos =
        s.nextReadPos + (c.bufferToFill.numSamples : Int) := by
      rw [getNextAudioBlock_nextReadPos]
      exact wrapInt64_eq_self hstep
    unfold playBlocks
    rw [ih _ (by rw [hpos]; exact hstep) (by rw [hpos, add_assoc]; exact hall), hpos, add_assoc]

/-- While the end-of-file flag stays set on media with audio, each block of a sequence
dispatches `videoEnded` exactly when its advanced position has reached the total
length. -/
theorem playTrace_endOfFile (cs : List AudioCallback) :
    ∀ s : FFmpegMediaReader, 0 < s.getNumberOfAudioChannels → 0 < s.getSampleRate →
      s.endOfFileReached = true → inInt64 s.nextReadPos →
      inInt64 (s.nextReadPos + (totalSamples cs : Nat)) →
      playTrace s cs =
        (positionsAfter s.nextReadPos cs).map
          (fun p => if s.getTotalLength ≤ p then [Notification.videoEnded] else []) := by
  induction cs with
  | nil =>
    intro s _ _ _ _ _
    rfl
  | cons c cs ih =>
    intro s hch hsr heof hs hall
    have hcast : ((totalSamples (c :: cs) : Nat) : Int) =
        (c.bufferToFill.numSamples : Int) + (totalSamples cs : Nat) := by
      simp [totalSamples]
    rw [hcast] at hall
    have hstep : inInt64 (s.nextReadPos + (c.bufferToFill.numSamples : Int)) := by
      unfold inInt64 at hs hall ⊢
      omega
    have heof0 : (produce s c.producer).endOfFileReached = true := by
      simp [produce, heof]
    have hpos : ((produce s c.producer).getNextAudioBlock c.bufferToFill).1.nextReadPos =
        s.nextReadPos + (c.bufferToFill.numSamples : Int) := by
      rw [getNextAudioBlock_nextReadPos]
      exact wrapInt64_eq_self hstep
    obtain ⟨h1, h2, h3, h4⟩ :=
      getNextAudioBlock_session (produce s c.producer) c.bufferToFill
    have htot : ((produce s c.producer).getNextAudioBlock c.bufferToFill).1.getTotalLength =
        s.getTotalLength := getNextAudioBlock_getTotalLength (produce s c.producer) c.bufferToFill
    have hrec := ih ((produce s c.producer).getNextAudioBlock c.bufferToFill).1
      (by unfold getNumberOfAudioChannels; rw [h2]; exact hch)
      (by unfold getSampleRate; rw [h1]; exact hsr)
      (by rw [h4]; exact heof0)
      (by rw [hpos]; exact hstep)
      (by rw [hpos, add_assoc]; exact hall)
    unfold playTrace positionsAfter
    dsimp only
    rw [hrec, hpos, htot, getNextAudioBlock_notifications, List.drop_left, List.map_cons]
    have hw : wrapInt64 ((produce s c.producer).nextReadPos + (c.bufferToFill.numSamples : Int)) =
        s.nextReadPos + (c.bufferToFill.numSamples : Int) := wrapInt64_eq_self hstep
    have hcond : (0 < (produce s c.producer).getNumberOfAudioChannels ∧
        0 < (produce s c.producer).getSampleRate ∧
        (produce s c.producer).endOfFileReached = true ∧
        (produce s c.producer).getTotalLength ≤
          wrapInt64 ((produce s c.producer).nextReadPos + (c.bufferToFill.numSamples : Int))) ↔
        s.getTotalLength ≤ s.nextReadPos + (c.bufferToFill.numSamples : Int) := by
      rw [hw]
      constructor
      · intro h
        exact h.2.2.2
      · intro h
        exact ⟨hch, hsr, heof0, h⟩
    simp only [hcond]

/-- The sum of the lengths of blocks that all have the same length. -/
theorem totalSamples_uniform (n : Nat) (cs : List AudioCallback)
    (hn : ∀ c ∈ cs, c.bufferToFill.numSamples = n) : totalSamples cs = n * cs.length := by
  induction cs with
  | nil => simp [totalSamples]
  | cons c cs ih =>
    have h1 : c.bufferToFill.numSamples = n := hn c (List.mem_cons_self c cs)
    have h2 := ih (fun d hd => hn d (List.mem_cons_of_mem c hd))
    simp only [totalSamples, h1, h2, List.length_cons]
    ring

/-- Blocks of one positive length that add up to the threshold exactly: only the last
advanced position reaches it. -/
theorem positionsAfter_uniform (n : Nat) (hpos : 0 < n) (total : Int) (cs : List AudioCallback)
    (hn : ∀ c ∈ cs, c.bufferToFill.numSamples = n) :
    ∀ p : Int, p + (n : Int) * ((cs.length : Nat) + 1) = total →
      ∀ c : AudioCallback, c.bufferToFill.numSamples = n →
      (positionsAfter p (cs ++ [c])).map
          (fun q => if total ≤ q then [Notification.videoEnded] else []) =
        List.replicate cs.length [] ++ [[Notification.videoEnded]] := by
  induction cs with
  | nil =>
    intro p hp c hc
    have : total ≤ p + (n : Int) := by
      simp only [List.length_nil, Nat.cast_zero, zero_add, mul_one] at hp
      omega
    simp [positionsAfter, hc, this]
  | cons d cs ih =>
    intro p hp c hc
    have hd : d.bufferToFill.numSamples = n := hn d (List.mem_cons_self d cs)
    have hrec := ih (fun e he => hn e (List.mem_cons_of_mem d he)) (p + (n : Int))
      (by
        simp only [List.length_cons, Nat.cast_add, Nat.cast_one] at hp
        rw [← hp]
        ring) c hc
    have hlt : ¬ total ≤ p + (n : Int) := by
      simp only [List.length_cons, Nat.cast_add, Nat.cast_one] at hp
      have h0 : (0 : Int) < (n : Int) := by exact_mod_cast hpos
      have h1 : (0 : Int) ≤ (n : Int) * (cs.length : Int) :=
        mul_nonneg h0.le (by exact_mod_cast Nat.zero_le _)
      have h2 : p + (n : Int) * ((cs.length : Int) + 1 + 1) =
          p + (n : Int) + (n : Int) * (cs.length : Int) + (n : Int) := by ring
      omega
    simp only [List.cons_append, positionsAfter, hd, List.map_cons, hlt, if_false,
      List.length_cons, List.replicate_succ]
    exact congrArg (List.cons []) hrec

/-- What `prepareToPlay` leaves of the reader: position 0, the media session and the
end-of-file flag as they were. -/
theorem prepareToPlay_fields (s : FFmpegMediaReader) (hint : Int) (rate : ℚ) :
    (s.prepareToPlay hint rate).nextReadPos = 0 ∧
    (s.prepareToPlay hint rate).sampleRate = s.sampleRate ∧
    (s.prepareToPlay hint rate).numberOfAudioChannels = s.numberOfAudioChannels ∧
    (s.prepareToPlay hint rate).duration = s.duration ∧
    (s.prepareToPlay hint rate).endOfFileReached = s.endOfFileReached := by
  unfold prepareToPlay
  dsimp only
  split_ifs <;> exact ⟨rfl, rfl, rfl, rfl, rfl⟩

/-- Once set, the end-of-file flag stays set over a sequence of block calls. -/
theorem playBlocks_endOfFileReached (cs : List AudioCallback) :
    ∀ s : FFmpegMediaReader, s.endOfFileReached = true →
      (playBlocks s cs).endOfFileReached = true := by
  induction cs with
  | nil =>
    intro s h
    exact h
  | cons c cs ih =>
    intro s h
    unfold playBlocks
    apply ih
    rw [(getNextAudioBlock_session (produce s c.producer) c.bufferToFill).2.2.2]
    simp [produce, h]

/-- The total length of the example media: ten seconds at 48 kHz. -/
theorem getTotalLength_mono (s : FFmpegMediaReader) (hsr : s.sampleRate = 48000)
    (hd : s.duration = 10) : s.getTotalLength = 480000 := by
  unfold getTotalLength getSampleRate getDuration
  rw [hsr, hd]
  norm_num [truncToInt64]

/-- A position below the truncated value of a rational is below the rational. -/
theorem lt_of_lt_truncToInt64 {n : Int} {q : ℚ} (h0 : 0 ≤ n) (h : n < truncToInt64 q) :
    (n : ℚ) < q := by
  unfold truncToInt64 at h
  have hden : (0 : Int) < (q.den : Int) := by exact_mod_cast q.den_pos
  by_cases hnum : 0 ≤ q.num
  · rw [Int.tdiv_eq_ediv hnum hden.le] at h
    have h1 : (n + 1) * (q.den : Int) ≤ q.num :=
      (Int.le_ediv_iff_mul_le hden).mp (by omega)
    have h2 : n * (q.den : Int) < q.num := by
      have : (n + 1) * (q.den : Int) = n * (q.den : Int) + (q.den : Int) := by ring
      omega
    have hdenq : (0 : ℚ) < (q.den : ℚ) := by exact_mod_cast q.den_pos
    have h3 : (n : ℚ) * (q.den : ℚ) < (q.num : ℚ) := by exact_mod_cast h2
    calc (n : ℚ) = (n : ℚ) * (q.den : ℚ) / (q.den : ℚ) := by
          field_simp
      _ < (q.num : ℚ) / (q.den : ℚ) := by
          exact div_lt_div_of_pos_right h3 hdenq
      _ = q := Rat.num_div_den q
  · exfalso
    have hneg : 0 ≤ -q.num := by omega
    have h1 : 0 ≤ (-q.num).tdiv (q.den : Int) := Int.tdiv_nonneg hneg hden.le
    rw [Int.neg_tdiv] at h1
    omega

/-- In a sequence of block calls without seeks, a block dispatches a notification only
if its advanced position has reached the total length. -/
theorem playTrace_quiet (cs : List AudioCallback) :
    ∀ s : FFmpegMediaReader, inInt64 s.nextReadPos →
      inInt64 (s.nextReadPos + (totalSamples cs : Nat)) →
      List.Forall₂ (fun evs p => evs ≠ [] → s.getTotalLength ≤ p)
        (playTrace s cs) (positionsAfter s.nextReadPos cs) := by
  induction cs with
  | nil =>
    intro s _ _
    exact List.Forall₂.nil
  | cons c cs ih =>
    intro s hs hall
    have hcast : ((totalSamples (c :: cs) : Nat) : Int) =
        (c.bufferToFill.numSamples : Int) + (totalSamples cs : Nat) := by
      simp [totalSamples]
    rw [hcast] at hall
    have hstep : inInt64 (s.nextReadPos + (c.bufferToFill.numSamples : Int)) := by
      unfold inInt64 at hs hall ⊢
      omega
    have hw : wrapInt64 ((produce s c.producer).nextReadPos + (c.bufferToFill.numSamples : Int)) =
        s.nextReadPos + (c.bufferToFill.numSamples : Int) := wrapInt64_eq_self hstep
    have hpos : ((produce s c.producer).getNextAudioBlock c.bufferToFill).1.nextReadPos =
        s.nextReadPos + (c.bufferToFill.numSamples : Int) := by
      rw [getNextAudioBlock_nextReadPos]
      exact hw
    have htot : ((produce s c.producer).getNextAudioBlock c.bufferToFill).1.getTotalLength =
        s.getTotalLength := getNextAudioBlock_getTotalLength (produce s c.producer) c.bufferToFill
    have hrec := ih ((produce s c.producer).getNextAudioBlock c.bufferToFill).1
      (by rw [hpos]; exact hstep) (by rw [hpos, add_assoc]; exact hall)
    rw [hpos, htot] at hrec
    unfold playTrace positionsAfter
    dsimp only
    refine List.Forall₂.cons ?_ hrec
    rw [getNextAudioBlock_notifications, List.drop_left, hw]
    intro hne
    by_cases hcond : 0 < (produce s c.producer).getNumberOfAudioChannels ∧
        0 < (produce s c.producer).getSampleRate ∧
        (produce s c.producer).endOfFileReached = true ∧
        (produce s c.producer).getTotalLength ≤ s.nextReadPos + (c.bufferToFill.numSamples : Int)
    · exact hcond.2.2.2
    · rw [if_neg hcond] at hne
      exact absurd rfl hne

/-- What a seek on a reader with a valid sample rate does. -/
theorem setNextReadPosition_valid (s : FFmpegMediaReader) (newPosition : Int)
    (hsr : 0 < s.getSampleRate) :
    s.setNextReadPosition newPosition =
      { s with
        nextReadPos := newPosition
        positionRequests := s.positionRequests ++
          [{ time := (newPosition : ℚ) / s.getSampleRate, isSeek := true }]
        endOfFileReached :=
          if (newPosition : ℚ) / s.getSampleRate < s.duration then false
          else s.endOfFileReached } := by
  unfold setNextReadPosition
  rw [if_pos hsr]
  simp [FFmpegMediaReader.setPositionSeconds, FFmpegMediaDecodeThread.setPositionSeconds,
    getSampleRate]

/-- Pulling as many video frames as are unread returns them in the order of the queue and
leaves none unread. -/
theorem pullVideoFrames_all (n : Nat) :
    ∀ s : FFmpegMediaReader, s.videoFramesFifo.countNewFrames = n →
      (pullVideoFrames n s).2 =
        (s.videoFramesFifo.frames.drop s.videoFramesFifo.readIndex).map (fun fr => some fr.1) ∧
      (pullVideoFrames n s).1.videoFramesFifo.countNewFrames = 0 := by
  induction n with
  | zero =>
    intro s h
    have hle : s.videoFramesFifo.frames.length ≤ s.videoFramesFifo.readIndex := by
      unfold FFmpegVideoFramesFIFO.countNewFrames at h
      omega
    simp [pullVideoFrames, List.drop_eq_nil_of_le hle, h]
  | succ n ih =>
    intro s h
    have hlt : s.videoFramesFifo.readIndex < s.videoFramesFifo.frames.length := by
      unfold FFmpegVideoFramesFIFO.countNewFrames at h
      omega
    have hpos : 0 < s.videoFramesFifo.countNewFrames := by omega
    have hstep : s.getNextVideoFrame =
        ({ s with
           currentPositionSeconds := s.videoFramesFifo.getSecondsAtReadIndex
           videoFramesFifo := s.videoFramesFifo.advanceReadIndex },
         some (s.videoFramesFifo.frames[s.videoFramesFifo.readIndex]).1) := by
      unfold getNextVideoFrame
      rw [if_pos hpos]
      simp [FFmpegVideoFramesFIFO.getFrameAtReadIndex, List.getElem?_eq_getElem hlt]
    have hrec := ih (s.getNextVideoFrame).1 (by
      rw [hstep]
      unfold FFmpegVideoFramesFIFO.countNewFrames FFmpegVideoFramesFIFO.advanceReadIndex at *
      simp only
      omega)
    unfold pullVideoFrames
    dsimp only
    refine ⟨?_, hrec.2⟩
    rw [hrec.1, hstep]
    simp only [FFmpegVideoFramesFIFO.advanceReadIndex]
    rw [List.drop_eq_getElem_cons hlt, List.map_cons]

/-! ## The claims -/

/-- Claim C1: `getNextAudioBlock` leaves `getNextReadPosition` at its previous value plus
the block length, whatever the channel count, sample rate, FIFO fill and end-of-file
flag; and over a sequence of block calls without seeks the position is the start
position plus the sum of the block lengths. Positions are `juce::int64` values, so the
sums are taken within that range. -/
theorem C1_position_advances_by_block_length (s : FFmpegMediaReader)
    (b : AudioSourceChannelInfo) (cs : List AudioCallback)
    (hs : inInt64 s.getNextReadPosition)
    (hb : inInt64 (s.getNextReadPosition + (b.numSamples : Int)))
    (hcs : inInt64 (s.getNextReadPosition + (totalSamples cs : Nat))) :
    (s.getNextAudioBlock b).1.getNextReadPosition = s.getNextReadPosition + (b.numSamples : Int) ∧
    (playBlocks s cs).getNextReadPosition = s.getNextReadPosition + (totalSamples cs : Nat) := by
  unfold getNextReadPosition at *
  exact ⟨by rw [getNextAudioBlock_nextReadPos]; exact wrapInt64_eq_self hb,
    playBlocks_nextReadPos cs s hs hcs⟩

/-- Witness of C1 on `monoReader`: one block of 480 samples and two such blocks. -/
theorem C1_position_advances_by_block_length_witness :
    (monoReader.getNextAudioBlock block480).1.getNextReadPosition =
        monoReader.getNextReadPosition + (block480.numSamples : Int) ∧
      (playBlocks monoReader [callback480, callback480]).getNextReadPosition =
        monoReader.getNextReadPosition + (totalSamples [callback480, callback480] : Nat) :=
  C1_position_advances_by_block_length monoReader block480 [callback480, callback480]
    (by decide) (by decide) (by decide)

/-- Claim C7: with no audio channel, or with a sample rate that is not positive,
`getNextAudioBlock` zeroes the whole requested region (and changes no other sample),
advances the position by the block length, leaves the audio FIFO as it is, issues no
`setPositionSeconds` request and dispatches no notification. -/
theorem C7_silent_path_without_audio (s : FFmpegMediaReader) (b : AudioSourceChannelInfo)
    (h : s.getNumberOfAudioChannels ≤ 0 ∨ ¬ 0 < s.getSampleRate)
    (hb : inInt64 (s.getNextReadPosition + (b.numSamples : Int))) :
    (∀ c i, (s.getNextAudioBlock b).2.sampleAt c i =
      if b.startSample ≤ i ∧ i < b.startSample + b.numSamples
      then (b.buffer.sampleAt c i).map (fun _ => 0) else b.buffer.sampleAt c i) ∧
    (s.getNextAudioBlock b).1.getNextReadPosition = s.getNextReadPosition + (b.numSamples : Int) ∧
    (s.getNextAudioBlock b).1.audioFifo = s.audioFifo ∧
    (s.getNextAudioBlock b).1.positionRequests = s.positionRequests ∧
    (s.getNextAudioBlock b).1.notifications = s.notifications := by
  have hcase : ¬ 0 < s.getNumberOfAudioChannels ∨ s.getSampleRate ≤ 0 :=
    h.imp not_lt.mpr not_lt.mp
  rw [getNextAudioBlock_silent s b hcase]
  refine ⟨?_, ?_, rfl, rfl, rfl⟩
  · intro c i
    exact clear_sampleAt b.buffer b.startSample b.numSamples c i
  · exact wrapInt64_eq_self hb

/-- Witness of C7 on a reader whose media has no audio channel. -/
theorem C7_silent_path_without_audio_witness :
    (∀ c i, (videoOnlyReader.getNextAudioBlock offsetBlock).2.sampleAt c i =
      if offsetBlock.startSample ≤ i ∧ i < offsetBlock.startSample + offsetBlock.numSamples
      then (offsetBlock.buffer.sampleAt c i).map (fun _ => 0)
      else offsetBlock.buffer.sampleAt c i) ∧
    (videoOnlyReader.getNextAudioBlock offsetBlock).1.getNextReadPosition =
      videoOnlyReader.getNextReadPosition + (offsetBlock.numSamples : Int) ∧
    (videoOnlyReader.getNextAudioBlock offsetBlock).1.audioFifo = videoOnlyReader.audioFifo ∧
    (videoOnlyReader.getNextAudioBlock offsetBlock).1.positionRequests =
      videoOnlyReader.positionRequests ∧
    (videoOnlyReader.getNextAudioBlock offsetBlock).1.notifications =
      videoOnlyReader.notifications :=
  C7_silent_path_without_audio videoOnlyReader offsetBlock (Or.inl (by decide)) (by decide)

/-- Claim C2, evaluated where the code departs from it: one frame (sample `1/2`) is ready,
the request is for the two samples at indices 1 and 2 of a buffer holding `1` everywhere.
The frame read into index 1 is zeroed again and index 2, the tail of the region, keeps
its old content: the silence is written from index `numReady` of the buffer, not from
`startSample + numReady`. -/
theorem C2_underrun_with_offset_leaves_tail :
    underrunReader.audioFifo.getNumReady = 1 ∧
    (underrunReader.getNextAudioBlock offsetBlock).2 = [[1, 0, 1, 1]] ∧
    (underrunReader.getNextAudioBlock offsetBlock).2.sampleAt 0 1 = some 0 ∧
    (underrunReader.getNextAudioBlock offsetBlock).2.sampleAt 0 2 = some 1 := by
  have hch : 0 < underrunReader.getNumberOfAudioChannels := by decide
  have hsr : 0 < underrunReader.getSampleRate := by
    norm_num [getSampleRate, underrunReader, monoReader, monoThread]
  have hbuf : (underrunReader.getNextAudioBlock offsetBlock).2 = [[1, 0, 1, 1]] := by
    rw [getNextAudioBlock_audio underrunReader offsetBlock hch hsr]
    simp [fillFromFifo, underrunReader, offsetBlock, AudioBufferFIFO.getNumReady,
      AudioBufferFIFO.readFromFifo, copyFrames, copyFromChannel, AudioBuffer.clear, clearChannel]
  rw [hbuf]
  exact ⟨rfl, rfl, rfl, rfl⟩

/-- Counterexample to claim C3 as stated: on ten seconds of mono audio at 48 kHz, with
the end-of-file flag set throughout, three blocks of 480 samples from position 479040
dispatch `videoEnded` on the block that reaches 480000 and again on the block after
it. -/
theorem C3_videoEnded_repeats_counterexample :
    nearEndReader.getTotalLength = 480000 ∧
    (playBlocks nearEndReader [callback480, callback480, callback480]).isEndOfFile = true ∧
    playTrace nearEndReader [callback480, callback480, callback480] =
      [[], [Notification.videoEnded], [Notification.videoEnded]] := by
  have htot : nearEndReader.getTotalLength = 480000 := getTotalLength_mono nearEndReader rfl rfl
  refine ⟨htot, playBlocks_endOfFileReached _ nearEndReader rfl, ?_⟩
  rw [playTrace_endOfFile _ nearEndReader (by decide)
    (by norm_num [getSampleRate, nearEndReader, monoReader, monoThread]) rfl (by decide)
    (by decide), htot]
  decide

/-- Claim C3 as amended: on media with audio and a valid sample rate, in a sequence of
block calls without seeks during which the end-of-file flag stays set, a block dispatches
`videoEnded` (once) exactly when its advanced position has reached or passed
`getTotalLength`: first on the block that reaches it, and on every block after it. -/
theorem C3_videoEnded_on_each_block_at_or_past_end (s : FFmpegMediaReader)
    (cs : List AudioCallback)
    (hch : 0 < s.getNumberOfAudioChannels) (hsr : 0 < s.getSampleRate)
    (heof : s.isEndOfFile = true) (hs : inInt64 s.getNextReadPosition)
    (hcs : inInt64 (s.getNextReadPosition + (totalSamples cs : Nat))) :
    (playBlocks s cs).isEndOfFile = true ∧
    playTrace s cs =
      (positionsAfter s.getNextReadPosition cs).map
        (fun p => if s.getTotalLength ≤ p then [Notification.videoEnded] else []) :=
  ⟨playBlocks_endOfFileReached cs s heof, playTrace_endOfFile cs s hch hsr heof hs hcs⟩

/-- Witness of the amended C3 on `monoReader`, two blocks from the start. -/
theorem C3_videoEnded_on_each_block_at_or_past_end_witness :
    (playBlocks monoReader [callback480, callback480]).isEndOfFile = true ∧
    playTrace monoReader [callback480, callback480] =
      (positionsAfter monoReader.getNextReadPosition [callback480, callback480]).map
        (fun p => if monoReader.getTotalLength ≤ p then [Notification.videoEnded] else []) :=
  C3_videoEnded_on_each_block_at_or_past_end monoReader [callback480, callback480]
    (by decide) (by simp [getSampleRate, monoReader, monoThread]) rfl
    (by decide) (by decide)

/-- Claim C9: at 48 kHz and ten seconds `getTotalLength` is 480000; from the position 0
that `prepareToPlay` leaves, with at least one audio channel and the end-of-file flag
set, 1000 blocks of 480 samples bring `getNextReadPosition` to 480000 and dispatch
`videoEnded` once in total, on the 1000th block. This holds whether or not the FIFO
underruns. -/
theorem C9_thousand_blocks_of_480 (s : FFmpegMediaReader) (hint : Int) (rate : ℚ)
    (cs : List AudioCallback)
    (hsr : s.getSampleRate = 48000) (hd : s.getDuration = 10)
    (hch : 1 ≤ s.getNumberOfAudioChannels) (heof : s.isEndOfFile = true)
    (hlen : cs.length = 1000) (hn : ∀ c ∈ cs, c.bufferToFill.numSamples = 480) :
    (s.prepareToPlay hint rate).getTotalLength = 480000 ∧
    (s.prepareToPlay hint rate).getNextReadPosition = 0 ∧
    (playBlocks (s.prepareToPlay hint rate) cs).getNextReadPosition = 480000 ∧
    playTrace (s.prepareToPlay hint rate) cs =
      List.replicate 999 [] ++ [[Notification.videoEnded]] := by
  obtain ⟨p0, p1, p2, p3, p4⟩ := prepareToPlay_fields s hint rate
  have hsr0 : (s.prepareToPlay hint rate).sampleRate = 48000 := p1.trans hsr
  have htot : (s.prepareToPlay hint rate).getTotalLength = 480000 :=
    getTotalLength_mono _ hsr0 (p3.trans hd)
  have hsum : totalSamples cs = 480000 := by
    rw [totalSamples_uniform 480 cs hn, hlen]
  have hzero : inInt64 (s.prepareToPlay hint rate).nextReadPos := by
    rw [p0]
    decide
  have hall : inInt64 ((s.prepareToPlay hint rate).nextReadPos + (totalSamples cs : Nat)) := by
    rw [p0, hsum]
    decide
  have hne : cs ≠ [] := by
    intro h
    rw [h] at hlen
    simp at hlen
  refine ⟨htot, p0, ?_, ?_⟩
  · unfold getNextReadPosition
    rw [playBlocks_nextReadPos cs _ hzero hall, p0, hsum]
    norm_num
  · rw [playTrace_endOfFile cs _
      (by unfold getNumberOfAudioChannels at hch ⊢; rw [p2]; omega)
      (by unfold getSampleRate; rw [hsr0]; norm_num)
      (p4.trans heof) hzero hall, htot, p0]
    have hsplit := List.dropLast_append_getLast hne
    have hlast : (cs.getLast hne).bufferToFill.numSamples = 480 :=
      hn _ (List.getLast_mem hne)
    have hinit : ∀ c ∈ cs.dropLast, c.bufferToFill.numSamples = 480 :=
      fun c hc => hn c (List.mem_of_mem_dropLast hc)
    have hlen0 : cs.dropLast.length = 999 := by
      rw [List.length_dropLast, hlen]
    have huni := positionsAfter_uniform 480 (by decide) 480000 cs.dropLast hinit 0
      (by rw [hlen0]; norm_num) (cs.getLast hne) hlast
    rw [hsplit, hlen0] at huni
    exact huni

/-- Witness of C9 on `monoReader` with 1000 callbacks for `block480`. -/
theorem C9_thousand_blocks_of_480_witness :
    (monoReader.prepareToPlay 480 44100).getTotalLength = 480000 ∧
    (monoReader.prepareToPlay 480 44100).getNextReadPosition = 0 ∧
    (playBlocks (monoReader.prepareToPlay 480 44100)
      (List.replicate 1000 callback480)).getNextReadPosition = 480000 ∧
    playTrace (monoReader.prepareToPlay 480 44100) (List.replicate 1000 callback480) =
      List.replicate 999 [] ++ [[Notification.videoEnded]] :=
  C9_thousand_blocks_of_480 monoReader 480 44100 (List.replicate 1000 callback480)
    rfl rfl (by decide) rfl (List.length_replicate 1000 callback480)
    (fun c hc => by rw [List.eq_of_mem_replicate hc]; rfl)

/-- Claim C4: with a valid sample rate and the end-of-file flag set, a seek to a position
`0 ≤ newPosition < getTotalLength` clears the flag; the next block, if its advanced
position stays below the total length, dispatches nothing; and in any sequence of
blocks after the seek a notification is dispatched only by a block whose advanced
position has reached the total length again. -/
theorem C4_seek_before_end_clears_endOfFile (s : FFmpegMediaReader) (newPosition : Int)
    (hsr : 0 < s.getSampleRate) (_heof : s.isEndOfFile = true)
    (h0 : 0 ≤ newPosition) (hlt : newPosition < s.getTotalLength) :
    (s.setNextReadPosition newPosition).isEndOfFile = false ∧
    (∀ (p : ProducerActivity) (b : AudioSourceChannelInfo),
      inInt64 (newPosition + (b.numSamples : Int)) →
      newPosition + (b.numSamples : Int) < s.getTotalLength →
      ((produce (s.setNextReadPosition newPosition) p).getNextAudioBlock b).1.notifications =
        (s.setNextReadPosition newPosition).notifications) ∧
    (∀ cs : List AudioCallback, inInt64 newPosition →
      inInt64 (newPosition + (totalSamples cs : Nat)) →
      List.Forall₂ (fun evs q => evs ≠ [] → s.getTotalLength ≤ q)
        (playTrace (s.setNextReadPosition newPosition) cs) (positionsAfter newPosition cs)) := by
  have hseek := setNextReadPosition_valid s newPosition hsr
  have htime : (newPosition : ℚ) / s.getSampleRate < s.duration := by
    have hq : (newPosition : ℚ) < s.getDuration * s.getSampleRate := by
      apply lt_of_lt_truncToInt64 h0
      unfold getTotalLength at hlt
      rw [if_pos hsr] at hlt
      exact hlt
    exact (div_lt_iff₀ hsr).mpr hq
  rw [if_pos htime] at hseek
  have htot : (s.setNextReadPosition newPosition).getTotalLength = s.getTotalLength := by
    rw [hseek]
    rfl
  have hposn : (s.setNextReadPosition newPosition).nextReadPos = newPosition := by
    rw [hseek]
  refine ⟨by rw [hseek]; rfl, ?_, ?_⟩
  · intro p b hb hbelow
    rw [getNextAudioBlock_notifications, if_neg]
    · simp [produce]
    · rintro ⟨_, _, _, hle⟩
      have hw : wrapInt64 ((produce (s.setNextReadPosition newPosition) p).nextReadPos +
          (b.numSamples : Int)) = newPosition + (b.numSamples : Int) := by
        have : (produce (s.setNextReadPosition newPosition) p).nextReadPos = newPosition := hposn
        rw [this]
        exact wrapInt64_eq_self hb
      rw [hw] at hle
      have : (produce (s.setNextReadPosition newPosition) p).getTotalLength = s.getTotalLength :=
        htot
      omega
  · intro cs hn hcs
    have h := playTrace_quiet cs (s.setNextReadPosition newPosition)
      (by rw [hposn]; exact hn) (by rw [hposn]; exact hcs)
    rw [hposn, htot] at h
    exact h

/-- Witness of C4: `nearEndReader` has its end-of-file flag set and is sought back to
position 480. -/
theorem C4_seek_before_end_clears_endOfFile_witness :
    (nearEndReader.setNextReadPosition 480).isEndOfFile = false ∧
    (∀ (p : ProducerActivity) (b : AudioSourceChannelInfo),
      inInt64 (480 + (b.numSamples : Int)) →
      480 + (b.numSamples : Int) < nearEndReader.getTotalLength →
      ((produce (nearEndReader.setNextReadPosition 480) p).getNextAudioBlock b).1.notifications =
        (nearEndReader.setNextReadPosition 480).notifications) ∧
    (∀ cs : List AudioCallback, inInt64 480 →
      inInt64 (480 + (totalSamples cs : Nat)) →
      List.Forall₂ (fun evs q => evs ≠ [] → nearEndReader.getTotalLength ≤ q)
        (playTrace (nearEndReader.setNextReadPosition 480) cs) (positionsAfter 480 cs)) :=
  C4_seek_before_end_clears_endOfFile nearEndReader 480
    (by simp [getSampleRate, nearEndReader, monoReader, monoThread]) rfl (by decide)
    (by rw [getTotalLength_mono nearEndReader rfl rfl]; decide)

/-- Counterexample to claim C5 as stated: a reader at position 479040 is still at
position 479040, not 0, after `loadMediaFile`, whether the open fails or succeeds, and
after two loads in succession. -/
theorem C5_load_keeps_read_position_counterexample :
    (nearEndReader.loadMediaFile brokenFile).1.getNextReadPosition = 479040 ∧
    (nearEndReader.loadMediaFile stereoFile).1.getNextReadPosition = 479040 ∧
    ((nearEndReader.loadMediaFile stereoFile).1.loadMediaFile stereoFile).1.getNextReadPosition =
      479040 := by
  exact ⟨rfl, rfl, rfl⟩

/-- Claim C5 as amended: for every prior state and every input file, whether the open
succeeds or fails, after `loadMediaFile` the end-of-file flag is false and the tracked
presentation time is 0, also after two loads in succession; `getNextReadPosition` is
what it was before the load, and is 0 after the `prepareToPlay` that follows. -/
theorem C5_load_resets_endOfFile_not_position (s : FFmpegMediaReader) (f g : File)
    (hint : Int) (rate : ℚ) :
    (s.loadMediaFile f).1.isEndOfFile = false ∧
    (s.loadMediaFile f).1.currentPositionSeconds = 0 ∧
    (s.loadMediaFile f).1.getNextReadPosition = s.getNextReadPosition ∧
    ((s.loadMediaFile f).1.loadMediaFile g).1.isEndOfFile = false ∧
    ((s.loadMediaFile f).1.loadMediaFile g).1.currentPositionSeconds = 0 ∧
    ((s.loadMediaFile f).1.loadMediaFile g).1.getNextReadPosition = s.getNextReadPosition ∧
    ((s.loadMediaFile f).1.prepareToPlay hint rate).getNextReadPosition = 0 := by
  have hone : ∀ (t : FFmpegMediaReader) (h : File),
      (t.loadMediaFile h).1.isEndOfFile = false ∧
      (t.loadMediaFile h).1.currentPositionSeconds = 0 ∧
      (t.loadMediaFile h).1.getNextReadPosition = t.getNextReadPosition := by
    intro t h
    unfold loadMediaFile FFmpegMediaDecodeThread.loadMediaFile
    cases h.media <;> exact ⟨rfl, rfl, rfl⟩
  obtain ⟨a1, a2, a3⟩ := hone s f
  obtain ⟨b1, b2, b3⟩ := hone (s.loadMediaFile f).1 g
  exact ⟨a1, a2, a3, b1, b2, b3.trans a3, (prepareToPlay_fields _ hint rate).1⟩

/-- Claim C6: with `k > 0` unread frames `getNextVideoFrame` returns the frame at the read
cursor, sets the tracked presentation time to its timestamp and advances the cursor by
one, leaving `k - 1` unread; with no unread frame it returns null and changes nothing;
and `k` successive calls return the `k` unread frames in the order they were appended. -/
theorem C6_video_frames_in_queue_order (s : FFmpegMediaReader) :
    (0 < s.videoFramesFifo.countNewFrames →
      ∃ fr, s.videoFramesFifo.frames[s.videoFramesFifo.readIndex]? = some fr ∧
        s.getNextVideoFrame.2 = some fr.1 ∧
        s.getNextVideoFrame.1.currentPositionSeconds = fr.2 ∧
        s.getNextVideoFrame.1.videoFramesFifo.readIndex = s.videoFramesFifo.readIndex + 1 ∧
        s.getNextVideoFrame.1.videoFramesFifo.frames = s.videoFramesFifo.frames ∧
        s.getNextVideoFrame.1.videoFramesFifo.countNewFrames =
          s.videoFramesFifo.countNewFrames - 1) ∧
    (s.videoFramesFifo.countNewFrames = 0 → s.getNextVideoFrame = (s, none)) ∧
    (pullVideoFrames s.videoFramesFifo.countNewFrames s).2 =
      (s.videoFramesFifo.frames.drop s.videoFramesFifo.readIndex).map (fun fr => some fr.1) := by
  refine ⟨?_, ?_, (pullVideoFrames_all _ s rfl).1⟩
  · intro hpos
    have hlt : s.videoFramesFifo.readIndex < s.videoFramesFifo.frames.length := by
      unfold FFmpegVideoFramesFIFO.countNewFrames at hpos
      omega
    refine ⟨s.videoFramesFifo.frames[s.videoFramesFifo.readIndex],
      List.getElem?_eq_getElem hlt, ?_⟩
    unfold getNextVideoFrame
    rw [if_pos hpos]
    simp [FFmpegVideoFramesFIFO.getFrameAtReadIndex, FFmpegVideoFramesFIFO.getSecondsAtReadIndex,
      FFmpegVideoFramesFIFO.advanceReadIndex, FFmpegVideoFramesFIFO.countNewFrames,
      List.getElem?_eq_getElem hlt]
    omega
  · intro hzero
    unfold getNextVideoFrame
    rw [if_neg (by omega)]

/-- Witness of C6: `videoReader` has two unread frames, `monoReader` has none. -/
theorem C6_video_frames_in_queue_order_witness :
    (0 < videoReader.videoFramesFifo.countNewFrames ∧
      ∃ fr, videoReader.videoFramesFifo.frames[videoReader.videoFramesFifo.readIndex]? = some fr ∧
        videoReader.getNextVideoFrame.2 = some fr.1 ∧
        videoReader.getNextVideoFrame.1.currentPositionSeconds = fr.2 ∧
        videoReader.getNextVideoFrame.1.videoFramesFifo.readIndex =
          videoReader.videoFramesFifo.readIndex + 1 ∧
        videoReader.getNextVideoFrame.1.videoFramesFifo.frames =
          videoReader.videoFramesFifo.frames ∧
        videoReader.getNextVideoFrame.1.videoFramesFifo.countNewFrames =
          videoReader.videoFramesFifo.countNewFrames - 1) ∧
    (monoReader.videoFramesFifo.countNewFrames = 0 ∧ monoReader.getNextVideoFrame = (monoReader, none)) :=
  ⟨⟨by decide, (C6_video_frames_in_queue_order videoReader).1 (by decide)⟩,
   ⟨rfl, (C6_video_frames_in_queue_order monoReader).2.1 rfl⟩⟩

/-- Claim C8: with a positive sample rate `setNextReadPosition (newPosition)` sets
`getNextReadPosition` to `newPosition`, whatever its sign or size, and issues exactly one
`setPositionSeconds` request, with time `newPosition / sampleRate` and `isSeek = true`;
with a sample rate that is not positive it changes nothing and issues no request. -/
theorem C8_setNextReadPosition_seeks_or_does_nothing (s : FFmpegMediaReader)
    (newPosition : Int) :
    (0 < s.getSampleRate →
      (s.setNextReadPosition newPosition).getNextReadPosition = newPosition ∧
      (s.setNextReadPosition newPosition).positionRequests =
        s.positionRequests ++
          [{ time := (newPosition : ℚ) / s.getSampleRate, isSeek := true }]) ∧
    (¬ 0 < s.getSampleRate → s.setNextReadPosition newPosition = s) := by
  constructor
  · intro hsr
    rw [setNextReadPosition_valid s newPosition hsr]
    exact ⟨rfl, rfl⟩
  · intro hsr
    unfold setNextReadPosition
    rw [if_neg hsr]

/-- Witness of C8: a seek to the negative position `-5` on `monoReader`, whose sample rate
is 48000, and on `videoOnlyReader`, whose sample rate is 0. -/
theorem C8_setNextReadPosition_seeks_or_does_nothing_witness :
    (0 < monoReader.getSampleRate ∧
      (monoReader.setNextReadPosition (-5)).getNextReadPosition = -5 ∧
      (monoReader.setNextReadPosition (-5)).positionRequests =
        monoReader.positionRequests ++
          [{ time := ((-5 : Int) : ℚ) / monoReader.getSampleRate, isSeek := true }]) ∧
    (¬ 0 < videoOnlyReader.getSampleRate ∧
      videoOnlyReader.setNextReadPosition (-5) = videoOnlyReader) :=
  ⟨⟨by simp [getSampleRate, monoReader, monoThread],
    (C8_setNextReadPosition_seeks_or_does_nothing monoReader (-5)).1
      (by simp [getSampleRate, monoReader, monoThread])⟩,
   ⟨by simp [getSampleRate, videoOnlyReader],
    (C8_setNextReadPosition_seeks_or_does_nothing videoOnlyReader (-5)).2
      (by simp [getSampleRate, videoOnlyReader])⟩⟩

/-- Claim C10, evaluated where the code departs from it: the FIFO already holds the 480
frames of the block, the loop ends at its first test, and the answer is `false`; no
sequence of polls makes the answer `true`. -/
theorem C10_wait_answers_false_when_ready :
    waitForNextAudioBlockReady block480 100 0 [{ numReady := 480, nowMs := 0 }] = some false ∧
    ∀ (b : AudioSourceChannelInfo) (msecs startMs : Int) (polls : List Poll),
      waitForNextAudioBlockReady b msecs startMs polls ≠ some true := by
  constructor
  · decide
  · intro b msecs startMs polls h
    unfold waitForNextAudioBlockReady at h
    cases hloop : waitLoop (b.numSamples : Int) (wrapInt64 (startMs + msecs)) polls with
    | none => simp [hloop] at h
    | some p => simp [hloop] at h

end CbFFmpeg
